import Mathlib

set_option maxHeartbeats 1600000
set_option maxRecDepth 100000

/-! Verification of the anchor-based source augmentation script `fix_index.py`.

The script reads `src/index.ts`, performs three textual substitutions —
`content.replace` for the import block, `re.sub` for the tools array, and
`content.replace` for the writeOperations set — writes the result back, and
prints a fixed four-line summary.  The `re.sub` pattern
`(  getWaitStatsTool,)\n(];)` contains no regex metacharacter outside its two
capture groups of fixed text, so it matches exactly the literal string
`  getWaitStatsTool,\n];`.  Its replacement argument is the Python expression
`r"\1" + tools_addition + "\n\2"`: only the first summand is a raw string, so
only `\1` is a backreference — in the non-raw literal `"\n\2"` the `\2` is
the octal escape for the control character U+0002, not a reference to group 2.
The `re.sub` is therefore equivalent to a literal replace-all of
`  getWaitStatsTool,\n];` by the fixed string `tools_new` below, which ends
with a newline and U+0002 rather than with `];`.

Text is modelled as `List Char`.  Python's `str.replace(old, new)` with a
non-empty `old` replaces every non-overlapping occurrence of `old`, scanning
left to right; `re.sub` with a literal pattern does the same.  `replaceAll`
below implements exactly that scan, structurally recursive on a fuel argument
initialized to the length of the string so that it evaluates by `decide`. -/

/-- One left-to-right scan step of Python `str.replace`: if `old` is a prefix
of the remaining text, emit `new` and skip `old.length` characters, else copy
one character.  `fuel` only forces structural termination; it is initialized
to the string length, which the scan never exhausts. -/
def repAux (old new : List Char) : Nat → List Char → List Char
  | _, [] => []
  | 0, s => s
  | fuel + 1, c :: cs =>
    if old.isPrefixOf (c :: cs) then
      new ++ repAux old new fuel (cs.drop (old.length - 1))
    else
      c :: repAux old new fuel cs

/-- Python `s.replace(old, new)` for non-empty `old` (also the behaviour of
`re.sub` for a literal pattern): replace every leftmost non-overlapping
occurrence of `old` in `s` by `new`. -/
def replaceAll (old new s : List Char) : List Char :=
  repAux old new s.length s

/-- Number of positions of `s` at which `pat` occurs (all occurrences,
overlapping ones included). -/
def numOcc (pat : List Char) : List Char → Nat
  | [] => 0
  | c :: cs => (if pat.isPrefixOf (c :: cs) then 1 else 0) + numOcc pat cs

/-- The `import_statement` block of `fix_index.py` (triple-quoted string,
lines 9-20 of the source). -/
def import_statement : String :=
  "import \x7b\n  addDatabaseFileTool,\n  removeDatabaseFileTool,\n  modifyDatabaseFileTool,\n  shrinkDatabaseFileTool,\n  createFilegroupTool,\n  removeFilegroupTool,\n  modifyFilegroupTool,\n  listFilegroupsTool,\n  listDatabaseFilesTool,\n\x7d from \x27./tools/file-management.js\x27;\n"

/-- First argument of the first `content.replace` (line 24): the import-block
anchor. -/
def perf_anchor : String := "\x7d from \x27./tools/performance.js\x27;"

/-- Second argument of the first `content.replace` (line 25): the anchor
followed by a newline and the import block. -/
def perf_new : String := "\x7d from \x27./tools/performance.js\x27;\n" ++ import_statement

/-- The `tools_addition` block of `fix_index.py` (lines 29-39): a leading
newline, a comment line, then the nine new tool entries, no trailing
newline. -/
def tools_addition : String :=
  "\n  // File and filegroup management tools\n  addDatabaseFileTool,\n  removeDatabaseFileTool,\n  modifyDatabaseFileTool,\n  shrinkDatabaseFileTool,\n  createFilegroupTool,\n  removeFilegroupTool,\n  modifyFilegroupTool,\n  listFilegroupsTool,\n  listDatabaseFilesTool,"

/-- The literal string matched by the `re.sub` pattern
`(  getWaitStatsTool,)\n(];)` (line 43). -/
def tools_anchor : String := "  getWaitStatsTool,\n];"

/-- The literal replacement produced by `re.sub` (line 44).  The replacement
argument is built as `r"\1" + tools_addition + "\n\2"`; its last summand is a
non-raw Python string, in which `\2` is the octal escape for the control
character U+0002, not a backreference.  The template therefore re-emits
group 1 (`  getWaitStatsTool,`), then `tools_addition`, then a newline and the
character U+0002 — the matched closing `];` is consumed by the match and not
re-emitted. -/
def tools_new : String := "  getWaitStatsTool," ++ tools_addition ++ "\n\x02"

/-- The `write_ops` block of `fix_index.py` (lines 49-56). -/
def write_ops : String :=
  "  \x27sqlserver_add_database_file\x27,\n  \x27sqlserver_remove_database_file\x27,\n  \x27sqlserver_modify_database_file\x27,\n  \x27sqlserver_shrink_database_file\x27,\n  \x27sqlserver_create_filegroup\x27,\n  \x27sqlserver_remove_filegroup\x27,\n  \x27sqlserver_modify_filegroup\x27,\n"

/-- First argument of the second `content.replace` (line 60): the
writeOperations anchor. -/
def write_anchor : String := "  \x27sqlserver_delete_job\x27,\n]);"

/-- Second argument of the second `content.replace` (line 61). -/
def write_new : String := "  \x27sqlserver_delete_job\x27,\n" ++ write_ops ++ "]);"

/-- Step 1 of the script: `content.replace(perf_anchor, perf_new)`. -/
def applyImport (c : List Char) : List Char :=
  replaceAll perf_anchor.data perf_new.data c

/-- Step 2 of the script: `re.sub` on the tools array, equivalent to
`content.replace(tools_anchor, tools_new)`. -/
def applyTools (c : List Char) : List Char :=
  replaceAll tools_anchor.data tools_new.data c

/-- Step 3 of the script: `content.replace(write_anchor, write_new)`. -/
def applyWriteOps (c : List Char) : List Char :=
  replaceAll write_anchor.data write_new.data c

/-- The whole in-memory transformation of the script, steps 1-3 in source
order. -/
def fixIndexContent (c : List Char) : List Char :=
  applyWriteOps (applyTools (applyImport c))

/-- The four `print` calls at the end of `fix_index.py` (lines 68-71).  They
are unconditional: the printed lines do not depend on the content that was
processed, which is why the parameter is unused. -/
def summaryLines (_c : List Char) : List String :=
  ["Successfully updated index.ts",
   "- Added file-management import",
   "- Added 9 new tools to tools array",
   "- Added 7 write operations to writeOperations set"]

/-- Reading the external store (the `open(..., 'r')`/`f.read()` at the top of
the script); a missing or unreadable file raises, modelled by `Except.error`. -/
def readStore (store : Option (List Char)) : Except Unit (List Char) :=
  match store with
  | none => Except.error ()
  | some c => Except.ok c

/-- The whole script run over an abstract external store: read, transform,
write.  A raised read error propagates (Python unwinds before the `open`
for writing is ever reached), so the store is left unchanged and the Bool
flag records that no write was performed. -/
def runScript (store : Option (List Char)) : Option (List Char) × Bool :=
  match readStore store with
  | Except.error _ => (store, false)
  | Except.ok c => (some (fixIndexContent c), true)

/-! Basic facts about the scan. -/

theorem repAux_nil (old new : List Char) (f : Nat) : repAux old new f [] = [] := by
  cases f <;> rfl

theorem repAux_congr (old new : List Char) :
    ∀ f₁ : Nat, ∀ s : List Char, ∀ f₂ : Nat, s.length ≤ f₁ → s.length ≤ f₂ →
      repAux old new f₁ s = repAux old new f₂ s := by
  intro f₁
  induction f₁ with
  | zero =>
    intro s f₂ h1 _
    have hs : s = [] := List.eq_nil_of_length_eq_zero (Nat.le_zero.mp h1)
    subst hs
    rw [repAux_nil, repAux_nil]
  | succ f ih =>
    intro s f₂ h1 h2
    cases s with
    | nil => rw [repAux_nil, repAux_nil]
    | cons c cs =>
      cases f₂ with
      | zero => simp at h2
      | succ g =>
        simp only [List.length_cons, Nat.add_le_add_iff_right] at h1 h2
        simp only [repAux]
        by_cases h : old.isPrefixOf (c :: cs)
        · rw [if_pos h, if_pos h]
          congr 1
          have hd : (cs.drop (old.length - 1)).length ≤ cs.length := by
            rw [List.length_drop]; omega
          exact ih _ _ (le_trans hd h1) (le_trans hd h2)
        · rw [if_neg h, if_neg h]
          congr 1
          exact ih _ _ h1 h2

theorem replaceAll_nil (old new : List Char) : replaceAll old new [] = [] := rfl

theorem replaceAll_cons_pos (old new : List Char) (c : Char) (cs : List Char)
    (h : old <+: c :: cs) :
    replaceAll old new (c :: cs) = new ++ replaceAll old new (cs.drop (old.length - 1)) := by
  have hb : old.isPrefixOf (c :: cs) = true := List.isPrefixOf_iff_prefix.mpr h
  show repAux old new (c :: cs).length (c :: cs) = _
  simp only [List.length_cons, repAux, hb, if_true]
  congr 1
  exact repAux_congr _ _ _ _ _ (by rw [List.length_drop]; omega) le_rfl

theorem replaceAll_cons_neg (old new : List Char) (c : Char) (cs : List Char)
    (h : ¬ old <+: c :: cs) :
    replaceAll old new (c :: cs) = c :: replaceAll old new cs := by
  have hb : old.isPrefixOf (c :: cs) = false := by
    cases hx : old.isPrefixOf (c :: cs) with
    | false => rfl
    | true => exact absurd (List.isPrefixOf_iff_prefix.mp hx) h
  show repAux old new (c :: cs).length (c :: cs) = _
  simp only [List.length_cons, repAux, hb, Bool.false_eq_true, if_false]
  rfl

/-- Scanning from an occurrence of `old` replaces it and continues after it:
the left-to-right scan is greedy. -/
theorem replaceAll_head (old new t : List Char) (hold : old ≠ []) :
    replaceAll old new (old ++ t) = new ++ replaceAll old new t := by
  cases old with
  | nil => exact absurd rfl hold
  | cons o os =>
    rw [List.cons_append,
      replaceAll_cons_pos _ _ _ _ (by rw [← List.cons_append]; exact List.prefix_append _ _)]
    congr 2
    simp only [List.length_cons, Nat.add_sub_cancel]
    exact List.drop_left os t

theorem numOcc_nil (pat : List Char) : numOcc pat [] = 0 := rfl

theorem numOcc_cons (pat : List Char) (c : Char) (cs : List Char) :
    numOcc pat (c :: cs) = (if pat.isPrefixOf (c :: cs) then 1 else 0) + numOcc pat cs := rfl

theorem numOcc_cons_pos (pat : List Char) (c : Char) (cs : List Char)
    (h : pat <+: c :: cs) : numOcc pat (c :: cs) = 1 + numOcc pat cs := by
  rw [numOcc_cons, if_pos (List.isPrefixOf_iff_prefix.mpr h)]

theorem numOcc_cons_neg (pat : List Char) (c : Char) (cs : List Char)
    (h : ¬ pat <+: c :: cs) : numOcc pat (c :: cs) = numOcc pat cs := by
  have hb : pat.isPrefixOf (c :: cs) = false := by
    cases hx : pat.isPrefixOf (c :: cs) with
    | false => rfl
    | true => exact absurd (List.isPrefixOf_iff_prefix.mp hx) h
  rw [numOcc_cons, hb]
  simp

theorem numOcc_le_append_left (pat s t : List Char) :
    numOcc pat t ≤ numOcc pat (s ++ t) := by
  induction s with
  | nil => simp
  | cons c s' ih =>
    rw [List.cons_append, numOcc_cons]
    omega

theorem numOcc_eq_zero_iff (pat : List Char) (hp : pat ≠ []) :
    ∀ s : List Char, numOcc pat s = 0 ↔ ¬ pat <:+: s := by
  intro s
  induction s with
  | nil =>
    simp only [numOcc_nil, List.infix_nil]
    exact ⟨fun _ => hp, fun _ => trivial⟩
  | cons c cs ih =>
    by_cases h : pat <+: c :: cs
    · rw [numOcc_cons_pos _ _ _ h]
      simp only [List.infix_cons_iff]
      constructor
      · omega
      · intro hn; exact absurd (Or.inl h) hn
    · rw [numOcc_cons_neg _ _ _ h, ih]
      simp only [List.infix_cons_iff]
      constructor
      · intro hn hor
        rcases hor with hor | hor
        · exact h hor
        · exact hn hor
      · intro hn hor; exact hn (Or.inr hor)

/-- A string with no occurrence of the anchor is left unchanged. -/
theorem replaceAll_no_occ (old new : List Char) (_hold : old ≠ []) :
    ∀ s : List Char, ¬ old <:+: s → replaceAll old new s = s := by
  intro s
  induction s with
  | nil => intro _; rfl
  | cons c cs ih =>
    intro h
    rw [List.infix_cons_iff] at h
    push_neg at h
    rw [replaceAll_cons_neg _ _ _ _ h.1, ih h.2]

theorem numOcc_insert_ge (old : List Char) (hold : old ≠ []) (a t : List Char) :
    1 + numOcc old t ≤ numOcc old (a ++ (old ++ t)) := by
  induction a with
  | nil =>
    rw [List.nil_append]
    cases old with
    | nil => exact absurd rfl hold
    | cons o os =>
      rw [List.cons_append,
        numOcc_cons_pos _ _ _ (by rw [← List.cons_append]; exact List.prefix_append _ _)]
      have := numOcc_le_append_left (o :: os) os t
      omega
  | cons c a' ih =>
    rw [List.cons_append, numOcc_cons]
    omega

/-- If scanning reaches the occurrence of `old` after `a` without finding an
earlier occurrence (which the count hypothesis forces), the text before the
occurrence is copied verbatim and the scan continues after the occurrence. -/
theorem replaceAll_skip_clean (old new : List Char) (hold : old ≠ []) :
    ∀ a t : List Char, numOcc old (a ++ (old ++ t)) = 1 + numOcc old t →
      replaceAll old new (a ++ (old ++ t)) = a ++ (new ++ replaceAll old new t) := by
  intro a
  induction a with
  | nil =>
    intro t _
    rw [List.nil_append, List.nil_append]
    exact replaceAll_head old new t hold
  | cons c a' ih =>
    intro t h
    rw [List.cons_append] at h ⊢
    have hge : 1 + numOcc old t ≤ numOcc old (a' ++ (old ++ t)) :=
      numOcc_insert_ge old hold a' t
    have hnp : ¬ old <+: c :: (a' ++ (old ++ t)) := by
      intro hp
      rw [numOcc_cons_pos _ _ _ hp] at h
      omega
    rw [replaceAll_cons_neg _ _ _ _ hnp, numOcc_cons_neg _ _ _ hnp] at *
    rw [ih t h]
    rfl

/-- P1 / P2 core: when the anchor occurs exactly once, the replacement is a
single splice at that occurrence and everything else is copied verbatim. -/
theorem replaceAll_single (old new : List Char) (hold : old ≠ []) (a t : List Char)
    (h : numOcc old (a ++ (old ++ t)) = 1) :
    replaceAll old new (a ++ (old ++ t)) = a ++ (new ++ t) := by
  have h1 : 1 + numOcc old t ≤ 1 := h ▸ numOcc_insert_ge old hold a t
  have h2 : numOcc old t = 0 := by omega
  rw [replaceAll_skip_clean old new hold a t (by rw [h, h2])]
  rw [replaceAll_no_occ old new hold t ((numOcc_eq_zero_iff old hold t).mp h2)]

/-- When the anchor occurs exactly twice, both occurrences are replaced. -/
theorem replaceAll_double (old new : List Char) (hold : old ≠ []) (a b d : List Char)
    (h : numOcc old (a ++ (old ++ (b ++ (old ++ d)))) = 2) :
    replaceAll old new (a ++ (old ++ (b ++ (old ++ d)))) =
      a ++ (new ++ (b ++ (new ++ d))) := by
  have hge : 1 + numOcc old (b ++ (old ++ d)) ≤ 2 :=
    h ▸ numOcc_insert_ge old hold a (b ++ (old ++ d))
  have hge2 : 1 + numOcc old d ≤ numOcc old (b ++ (old ++ d)) :=
    numOcc_insert_ge old hold b d
  have ht : numOcc old (b ++ (old ++ d)) = 1 := by omega
  rw [replaceAll_skip_clean old new hold a _ (by rw [h, ht])]
  rw [replaceAll_single old new hold b d ht]

/-- `numOcc` counts exactly the set of positions at which the pattern is a
prefix of the corresponding tail. -/
theorem numOcc_eq_countP (pat : List Char) :
    ∀ s : List Char,
      numOcc pat s = (List.range s.length).countP (fun i => pat.isPrefixOf (s.drop i)) := by
  intro s
  induction s with
  | nil => rfl
  | cons c cs ih =>
    rw [List.length_cons, List.range_succ_eq_map, List.countP_cons, List.countP_map]
    have hcomp :
        ((fun i => pat.isPrefixOf ((c :: cs).drop i)) ∘ Nat.succ) =
          fun i => pat.isPrefixOf (cs.drop i) := by
      funext i
      simp [Function.comp, List.drop_succ_cons]
    rw [hcomp, ← ih, numOcc_cons, List.drop_zero]
    omega

theorem occ_at_split (old a b : List Char) :
    old.isPrefixOf ((a ++ (old ++ b)).drop a.length) = true := by
  rw [List.drop_left]
  exact List.isPrefixOf_iff_prefix.mpr (List.prefix_append _ _)

theorem two_le_countP_of_two {p : Nat → Bool} {l : List Nat} {i j : Nat}
    (hi : i ∈ l) (hj : j ∈ l) (hne : i ≠ j) (hpi : p i = true) (hpj : p j = true) :
    2 ≤ l.countP p := by
  have hfi : i ∈ l.filter p := List.mem_filter.mpr ⟨hi, hpi⟩
  have hfj : j ∈ l.filter p := List.mem_filter.mpr ⟨hj, hpj⟩
  have hj' : j ∈ (l.filter p).erase i := (List.mem_erase_of_ne (Ne.symm hne)).mpr hfj
  have h1 : 0 < ((l.filter p).erase i).length :=
    List.length_pos.mpr (List.ne_nil_of_mem hj')
  have h2 : ((l.filter p).erase i).length + 1 = (l.filter p).length :=
    List.length_erase_add_one hfi
  rw [List.countP_eq_length_filter]
  omega

/-- When the anchor occurs exactly once, the decomposition around the
occurrence is unique. -/
theorem split_unique (old : List Char) (hold : old ≠ []) (a b a' b' : List Char)
    (h : numOcc old (a ++ (old ++ b)) = 1)
    (he : a ++ (old ++ b) = a' ++ (old ++ b')) : a = a' ∧ b = b' := by
  have hlen : a.length = a'.length := by
    by_contra hne
    have hip : old.isPrefixOf ((a ++ (old ++ b)).drop a.length) = true :=
      occ_at_split old a b
    have hjp : old.isPrefixOf ((a ++ (old ++ b)).drop a'.length) = true := by
      rw [he]; exact occ_at_split old a' b'
    have hi : a.length ∈ List.range (a ++ (old ++ b)).length := by
      rw [List.mem_range]
      simp only [List.length_append]
      have : 0 < old.length := List.length_pos.mpr hold
      omega
    have hj : a'.length ∈ List.range (a ++ (old ++ b)).length := by
      rw [List.mem_range, he]
      simp only [List.length_append]
      have : 0 < old.length := List.length_pos.mpr hold
      omega
    have h2 : 2 ≤ numOcc old (a ++ (old ++ b)) := by
      rw [numOcc_eq_countP]
      exact two_le_countP_of_two hi hj hne hip hjp
    omega
  obtain ⟨ha, hrest⟩ := List.append_inj he hlen
  exact ⟨ha, List.append_cancel_left hrest⟩

/-- If the pattern does not occur inside `u` and no occurrence of it can start
inside `u` (no nonempty proper prefix of the pattern is a suffix of `u`),
then prepending `u` leaves the occurrence count of the pattern unchanged. -/
theorem numOcc_append_clean (pat : List Char) (_hpat : pat ≠ []) :
    ∀ u : List Char, ¬ pat <:+: u →
      (∀ k, k < pat.length → 0 < k → ¬ pat.take k <:+ u) →
      ∀ v : List Char, numOcc pat (u ++ v) = numOcc pat v := by
  intro u
  induction u with
  | nil => intro _ _ v; rw [List.nil_append]
  | cons c u' ih =>
    intro hp hk v
    rw [List.cons_append]
    have hbit : ¬ pat <+: c :: (u' ++ v) := by
      intro hpre
      rw [← List.cons_append] at hpre
      by_cases hlen : pat.length ≤ (c :: u').length
      · apply hp
        apply List.IsPrefix.isInfix
        rw [List.prefix_iff_eq_take, List.take_append_of_le_length hlen] at hpre
        exact List.prefix_iff_eq_take.mpr hpre
      · push_neg at hlen
        have htk : pat.take (c :: u').length = c :: u' := by
          rw [List.prefix_iff_eq_take] at hpre
          rw [hpre, List.take_take, Nat.min_eq_left (le_of_lt hlen), List.take_left]
        apply hk (c :: u').length hlen (by simp)
        rw [htk]
    rw [numOcc_cons_neg _ _ _ hbit]
    exact ih (fun hinf => hp (List.infix_cons_iff.mpr (Or.inr hinf)))
      (fun k hk1 hk2 hs => hk k hk1 hk2 (List.suffix_cons_iff.mpr (Or.inr hs))) v

theorem pfx_append_iff_of_le (t P x : List Char) (h : t.length ≤ P.length) :
    (t <+: P ++ x) ↔ t <+: P := by
  constructor
  · intro hp
    rw [List.prefix_iff_eq_take, List.take_append_of_le_length h] at hp
    exact List.prefix_iff_eq_take.mpr hp
  · intro hp
    exact hp.trans (List.prefix_append _ _)

theorem no_cross_P (P pat x : List Char) (k : Nat) (hP : ¬ P <:+: pat)
    (hlen : P.length < (pat.drop k).length) : ¬ pat.drop k <+: P ++ x := by
  intro hp
  have h1 : P <+: pat.drop k :=
    List.prefix_of_prefix_length_le (List.prefix_append _ _) hp (le_of_lt hlen)
  exact hP (List.IsInfix.trans h1.isInfix (List.drop_suffix k pat).isInfix)

/-- Replacement of `old` by `new`, where both share a prefix `P` that does
not occur inside the pattern `pat`, never changes whether a given suffix of
`pat` is a prefix of the text. -/
theorem replaceAll_pfx_pres (old new P pat : List Char)
    (hPold : P <+: old) (hPnew : P <+: new) (hP : ¬ P <:+: pat) :
    ∀ n : Nat, ∀ s : List Char, s.length ≤ n → ∀ k : Nat, k < pat.length →
      (pat.drop k <+: replaceAll old new s ↔ pat.drop k <+: s) := by
  have hPne : P ≠ [] := fun h => hP (h ▸ ⟨[], pat, by simp⟩)
  have holdne : old ≠ [] := by
    intro h
    rw [h, List.prefix_nil] at hPold
    exact hPne hPold
  intro n
  induction n with
  | zero =>
    intro s hs k _
    have hnil : s = [] := List.eq_nil_of_length_eq_zero (Nat.le_zero.mp hs)
    subst hnil
    rw [replaceAll_nil]
  | succ n ih =>
    intro s hs k hk
    by_cases hpre : old <+: s
    · obtain ⟨t, ht⟩ := hpre
      subst ht
      rw [replaceAll_head _ _ _ holdne]
      obtain ⟨So, hSo⟩ := hPold
      obtain ⟨Sn, hSn⟩ := hPnew
      rw [← hSo, ← hSn]
      simp only [List.append_assoc]
      by_cases hlen : (pat.drop k).length ≤ P.length
      · rw [pfx_append_iff_of_le _ _ _ hlen, pfx_append_iff_of_le _ _ _ hlen]
      · push_neg at hlen
        constructor
        · intro hcon; exact absurd hcon (no_cross_P P pat _ k hP hlen)
        · intro hcon; exact absurd hcon (no_cross_P P pat _ k hP hlen)
    · cases s with
      | nil => rw [replaceAll_nil]
      | cons c cs =>
        rw [replaceAll_cons_neg _ _ _ _ hpre]
        cases hdk : pat.drop k with
        | nil =>
          exfalso
          rw [List.drop_eq_nil_iff] at hdk
          omega
        | cons d t' =>
          have ht' : t' = pat.drop (k + 1) := by
            have h1 : pat.drop (k + 1) = (pat.drop k).tail := by
              rw [← List.drop_one, List.drop_drop]
            rw [h1, hdk]
            rfl
          rw [List.cons_prefix_cons, List.cons_prefix_cons]
          apply and_congr_right
          intro _
          by_cases hk2 : k + 1 < pat.length
          · rw [ht']
            exact ih cs (by simp only [List.length_cons, Nat.add_le_add_iff_right] at hs; exact hs)
              (k + 1) hk2
          · have hnil : t' = [] := by
              rw [ht', List.drop_eq_nil_iff]
              omega
            rw [hnil]
            simp

/-- Core of the sequencing argument: replacing `old` by `new` neither destroys
nor creates occurrences of a pattern `pat`, provided a common prefix `P` of
`old` and `new` does not occur inside `pat`, `pat` does not occur inside `old`
or `new`, and no occurrence of `pat` can start inside `old` or `new` (no
nonempty proper prefix of `pat` is a suffix of either). -/
theorem numOcc_replaceAll_pres (old new P pat : List Char) (hpat : pat ≠ [])
    (hPold : P <+: old) (hPnew : P <+: new) (hP : ¬ P <:+: pat)
    (h1 : ¬ pat <:+: new)
    (h2 : ∀ k, k < pat.length → 0 < k → ¬ pat.take k <:+ new)
    (h3 : ¬ pat <:+: old)
    (h4 : ∀ k, k < pat.length → 0 < k → ¬ pat.take k <:+ old) :
    ∀ s : List Char, numOcc pat (replaceAll old new s) = numOcc pat s := by
  have hPne : P ≠ [] := fun h => hP (h ▸ ⟨[], pat, by simp⟩)
  have holdne : old ≠ [] := by
    intro h
    rw [h, List.prefix_nil] at hPold
    exact hPne hPold
  have main : ∀ n : Nat, ∀ s : List Char, s.length ≤ n →
      numOcc pat (replaceAll old new s) = numOcc pat s := by
    intro n
    induction n with
    | zero =>
      intro s hs
      have hnil : s = [] := List.eq_nil_of_length_eq_zero (Nat.le_zero.mp hs)
      subst hnil
      rw [replaceAll_nil]
    | succ n ih =>
      intro s hs
      by_cases hpre : old <+: s
      · obtain ⟨t, ht⟩ := hpre
        subst ht
        rw [replaceAll_head _ _ _ holdne]
        rw [numOcc_append_clean pat hpat _ h1 h2]
        rw [numOcc_append_clean pat hpat _ h3 h4]
        apply ih
        have hlp : 0 < old.length := List.length_pos.mpr holdne
        rw [List.length_append] at hs
        omega
      · cases s with
        | nil => rw [replaceAll_nil]
        | cons c cs =>
          rw [replaceAll_cons_neg _ _ _ _ hpre]
          have hs' : cs.length ≤ n := by
            simp only [List.length_cons, Nat.add_le_add_iff_right] at hs
            exact hs
          have hiff : pat <+: c :: replaceAll old new cs ↔ pat <+: c :: cs := by
            have h0 : (0 : Nat) < pat.length := List.length_pos.mpr hpat
            have hthis := replaceAll_pfx_pres old new P pat hPold hPnew hP
              (n + 1) (c :: cs) hs 0 h0
            rw [List.drop_zero, replaceAll_cons_neg _ _ _ _ hpre] at hthis
            exact hthis
          by_cases hb : pat <+: c :: cs
          · rw [numOcc_cons_pos _ _ _ (hiff.mpr hb), numOcc_cons_pos _ _ _ hb, ih cs hs']
          · rw [numOcc_cons_neg _ _ _ (fun hcon => hb (hiff.mp hcon)),
              numOcc_cons_neg _ _ _ hb, ih cs hs']
  intro s
  exact main s.length s le_rfl

theorem numOcc_pos_iff (pat : List Char) (hpat : pat ≠ []) (s : List Char) :
    0 < numOcc pat s ↔ pat <:+: s := by
  rw [Nat.pos_iff_ne_zero, Ne, numOcc_eq_zero_iff pat hpat s, not_not]

/-- Whenever the anchor occurs, the replacement text occurs in the output. -/
theorem replaceAll_infix_new (old new : List Char) (hold : old ≠ []) :
    ∀ s : List Char, old <:+: s → new <:+: replaceAll old new s := by
  intro s
  induction s with
  | nil =>
    intro h
    rw [List.infix_nil] at h
    exact absurd h hold
  | cons c cs ih =>
    intro h
    by_cases hp : old <+: c :: cs
    · obtain ⟨t, ht⟩ := hp
      rw [← ht, replaceAll_head old new t hold]
      exact ⟨[], replaceAll old new t, by simp⟩
    · rw [replaceAll_cons_neg _ _ _ _ hp]
      rw [List.infix_cons_iff] at h
      rcases h with h | h
      · exact absurd h hp
      · exact List.infix_cons_iff.mpr (Or.inr (ih h))

/-- Combined form of the single-occurrence facts: existence of the splice
decomposition, the spliced output, and uniqueness of the decomposition. -/
theorem replaceAll_exists_unique_split (old new : List Char) (hold : old ≠ [])
    (c : List Char) (h : numOcc old c = 1) :
    ∃ a b, c = a ++ (old ++ b) ∧ replaceAll old new c = a ++ (new ++ b) ∧
      ∀ a' b', c = a' ++ (old ++ b') → a' = a ∧ b' = b := by
  have hinf : old <:+: c := by
    by_contra hni
    have h0 := (numOcc_eq_zero_iff old hold c).mpr hni
    omega
  obtain ⟨a, b, hab⟩ := hinf
  have hc : c = a ++ (old ++ b) := by rw [← hab, List.append_assoc]
  subst hc
  refine ⟨a, b, rfl, replaceAll_single old new hold a b h, ?_⟩
  intro a' b' he
  obtain ⟨ha, hb⟩ := split_unique old hold a b a' b' h he
  exact ⟨ha.symm, hb.symm⟩

/-! Instantiations at the three regions of the script.  The import-block
replacement extends its anchor (`perf_new` begins with `perf_anchor`); the
registration-list and writeOperations replacements share the long prefixes
`  getWaitStatsTool,\n` and `  'sqlserver_delete_job',\n` with their anchors.
The disjointness side conditions are discharged by computation on the
concrete strings. -/

/-- Applying the import-block region neither destroys nor creates occurrences
of the registration-list anchor. -/
theorem presImportTools (c : List Char) :
    numOcc tools_anchor.data (applyImport c) = numOcc tools_anchor.data c :=
  numOcc_replaceAll_pres perf_anchor.data perf_new.data perf_anchor.data
    tools_anchor.data (by decide) (List.prefix_refl _) (by decide) (by decide)
    (by decide) (by decide) (by decide) (by decide) c

/-- Applying the import-block region neither destroys nor creates occurrences
of the writeOperations anchor. -/
theorem presImportWrite (c : List Char) :
    numOcc write_anchor.data (applyImport c) = numOcc write_anchor.data c :=
  numOcc_replaceAll_pres perf_anchor.data perf_new.data perf_anchor.data
    write_anchor.data (by decide) (List.prefix_refl _) (by decide) (by decide)
    (by decide) (by decide) (by decide) (by decide) c

/-- Applying the registration-list region neither destroys nor creates
occurrences of the writeOperations anchor. -/
theorem presToolsWrite (c : List Char) :
    numOcc write_anchor.data (applyTools c) = numOcc write_anchor.data c :=
  numOcc_replaceAll_pres tools_anchor.data tools_new.data
    "  getWaitStatsTool,\n".data write_anchor.data (by decide) (by decide)
    (by decide) (by decide) (by decide) (by decide) (by decide) (by decide) c

/-- Applying the writeOperations region neither destroys nor creates
occurrences of the full replaced registration-list block. -/
theorem presWriteToolsNew (c : List Char) :
    numOcc tools_new.data (applyWriteOps c) = numOcc tools_new.data c :=
  numOcc_replaceAll_pres write_anchor.data write_new.data
    "  \x27sqlserver_delete_job\x27,\n".data tools_new.data (by decide) (by decide)
    (by decide) (by decide) (by decide) (by decide) (by decide) (by decide) c

/-! The claims. -/

/-- C1 counterexample: `str.replace` replaces every occurrence, so on a
content in which the import anchor occurs twice the region inserts twice.
The output is the doubled replacement, and its length is not the length that
a single contiguous insertion at one matched anchor span would produce. -/
theorem c1_counterexample :
    applyImport (perf_anchor ++ perf_anchor).data = (perf_new ++ perf_new).data ∧
    (applyImport (perf_anchor ++ perf_anchor).data).length ≠
      (perf_anchor ++ perf_anchor).data.length +
        (perf_new.data.length - perf_anchor.data.length) :=
  ⟨by decide, by decide⟩

/-- C1 (amended): for every input content in which the applied region's anchor
occurs exactly once, the output differs from the input only by that region's
single contiguous insertion/replacement at the matched anchor span; all text
outside the span is unchanged character-for-character. -/
theorem c1_byte_preservation (a b : List Char) :
    (numOcc perf_anchor.data (a ++ (perf_anchor.data ++ b)) = 1 →
      applyImport (a ++ (perf_anchor.data ++ b)) = a ++ (perf_new.data ++ b)) ∧
    (numOcc tools_anchor.data (a ++ (tools_anchor.data ++ b)) = 1 →
      applyTools (a ++ (tools_anchor.data ++ b)) = a ++ (tools_new.data ++ b)) ∧
    (numOcc write_anchor.data (a ++ (write_anchor.data ++ b)) = 1 →
      applyWriteOps (a ++ (write_anchor.data ++ b)) = a ++ (write_new.data ++ b)) :=
  ⟨fun h => replaceAll_single perf_anchor.data perf_new.data (by decide) a b h,
   fun h => replaceAll_single tools_anchor.data tools_new.data (by decide) a b h,
   fun h => replaceAll_single write_anchor.data write_new.data (by decide) a b h⟩

/-- C1 witness: the amended statement applied at concrete single-occurrence
inputs for each of the three regions. -/
theorem c1_byte_preservation_witness :
    applyImport ("A".data ++ (perf_anchor.data ++ "B".data)) =
      "A".data ++ (perf_new.data ++ "B".data) ∧
    applyTools ("A".data ++ (tools_anchor.data ++ "B".data)) =
      "A".data ++ (tools_new.data ++ "B".data) ∧
    applyWriteOps ("A".data ++ (write_anchor.data ++ "B".data)) =
      "A".data ++ (write_new.data ++ "B".data) :=
  ⟨(c1_byte_preservation "A".data "B".data).1 (by decide),
   (c1_byte_preservation "A".data "B".data).2.1 (by decide),
   (c1_byte_preservation "A".data "B".data).2.2 (by decide)⟩

/-- C2 counterexample: on a content with two occurrences of the import anchor
the code inserts at both occurrences; if only the first occurrence were used,
the second occurrence would remain unmodified, and the output would be the
second listed string — which differs from the actual output. -/
theorem c2_counterexample :
    applyImport ("A" ++ perf_anchor ++ "B" ++ perf_anchor ++ "C").data =
      ("A" ++ perf_new ++ "B" ++ perf_new ++ "C").data ∧
    ("A" ++ perf_new ++ "B" ++ perf_new ++ "C").data ≠
      ("A" ++ perf_new ++ "B" ++ perf_anchor ++ "C").data :=
  ⟨by decide, by decide⟩

/-- C2 (amended): each region replaces every leftmost non-overlapping
occurrence of its anchor, not only the first: on a content with exactly two
occurrences, both occurrences receive the insertion. -/
theorem c2_every_occurrence (a b d : List Char) :
    (numOcc perf_anchor.data
        (a ++ (perf_anchor.data ++ (b ++ (perf_anchor.data ++ d)))) = 2 →
      applyImport (a ++ (perf_anchor.data ++ (b ++ (perf_anchor.data ++ d)))) =
        a ++ (perf_new.data ++ (b ++ (perf_new.data ++ d)))) ∧
    (numOcc tools_anchor.data
        (a ++ (tools_anchor.data ++ (b ++ (tools_anchor.data ++ d)))) = 2 →
      applyTools (a ++ (tools_anchor.data ++ (b ++ (tools_anchor.data ++ d)))) =
        a ++ (tools_new.data ++ (b ++ (tools_new.data ++ d)))) ∧
    (numOcc write_anchor.data
        (a ++ (write_anchor.data ++ (b ++ (write_anchor.data ++ d)))) = 2 →
      applyWriteOps (a ++ (write_anchor.data ++ (b ++ (write_anchor.data ++ d)))) =
        a ++ (write_new.data ++ (b ++ (write_new.data ++ d)))) :=
  ⟨fun h => replaceAll_double perf_anchor.data perf_new.data (by decide) a b d h,
   fun h => replaceAll_double tools_anchor.data tools_new.data (by decide) a b d h,
   fun h => replaceAll_double write_anchor.data write_new.data (by decide) a b d h⟩

/-- C2 witness: the amended statement applied at concrete two-occurrence
inputs for each of the three regions. -/
theorem c2_every_occurrence_witness :
    applyImport ("A".data ++ (perf_anchor.data ++ ("B".data ++ (perf_anchor.data ++ "C".data)))) =
      "A".data ++ (perf_new.data ++ ("B".data ++ (perf_new.data ++ "C".data))) ∧
    applyTools ("A".data ++ (tools_anchor.data ++ ("B".data ++ (tools_anchor.data ++ "C".data)))) =
      "A".data ++ (tools_new.data ++ ("B".data ++ (tools_new.data ++ "C".data))) ∧
    applyWriteOps ("A".data ++ (write_anchor.data ++ ("B".data ++ (write_anchor.data ++ "C".data)))) =
      "A".data ++ (write_new.data ++ ("B".data ++ (write_new.data ++ "C".data))) :=
  ⟨(c2_every_occurrence "A".data "B".data "C".data).1 (by decide),
   (c2_every_occurrence "A".data "B".data "C".data).2.1 (by decide),
   (c2_every_occurrence "A".data "B".data "C".data).2.2 (by decide)⟩

/-- C3: for every input content in which a region's anchor occurs exactly
once, applying that region inserts its block exactly once: the content splits
uniquely around the single anchor occurrence, and the output is exactly that
split with the region's replacement spliced in — one insertion, not zero and
not more than one. -/
theorem c3_exactly_once (c : List Char) :
    (numOcc perf_anchor.data c = 1 →
      ∃ a b, c = a ++ (perf_anchor.data ++ b) ∧
        applyImport c = a ++ (perf_new.data ++ b) ∧
        ∀ a' b', c = a' ++ (perf_anchor.data ++ b') → a' = a ∧ b' = b) ∧
    (numOcc tools_anchor.data c = 1 →
      ∃ a b, c = a ++ (tools_anchor.data ++ b) ∧
        applyTools c = a ++ (tools_new.data ++ b) ∧
        ∀ a' b', c = a' ++ (tools_anchor.data ++ b') → a' = a ∧ b' = b) ∧
    (numOcc write_anchor.data c = 1 →
      ∃ a b, c = a ++ (write_anchor.data ++ b) ∧
        applyWriteOps c = a ++ (write_new.data ++ b) ∧
        ∀ a' b', c = a' ++ (write_anchor.data ++ b') → a' = a ∧ b' = b) :=
  ⟨fun h => replaceAll_exists_unique_split perf_anchor.data perf_new.data (by decide) c h,
   fun h => replaceAll_exists_unique_split tools_anchor.data tools_new.data (by decide) c h,
   fun h => replaceAll_exists_unique_split write_anchor.data write_new.data (by decide) c h⟩

/-- C3 witness: the statement applied at concrete single-occurrence inputs for
each of the three regions. -/
theorem c3_exactly_once_witness :
    (∃ a b, ("X" ++ perf_anchor ++ "Y").data = a ++ (perf_anchor.data ++ b) ∧
      applyImport ("X" ++ perf_anchor ++ "Y").data = a ++ (perf_new.data ++ b) ∧
      ∀ a' b', ("X" ++ perf_anchor ++ "Y").data = a' ++ (perf_anchor.data ++ b') →
        a' = a ∧ b' = b) ∧
    (∃ a b, ("X" ++ tools_anchor ++ "Y").data = a ++ (tools_anchor.data ++ b) ∧
      applyTools ("X" ++ tools_anchor ++ "Y").data = a ++ (tools_new.data ++ b) ∧
      ∀ a' b', ("X" ++ tools_anchor ++ "Y").data = a' ++ (tools_anchor.data ++ b') →
        a' = a ∧ b' = b) ∧
    (∃ a b, ("X" ++ write_anchor ++ "Y").data = a ++ (write_anchor.data ++ b) ∧
      applyWriteOps ("X" ++ write_anchor ++ "Y").data = a ++ (write_new.data ++ b) ∧
      ∀ a' b', ("X" ++ write_anchor ++ "Y").data = a' ++ (write_anchor.data ++ b') →
        a' = a ∧ b' = b) :=
  ⟨(c3_exactly_once ("X" ++ perf_anchor ++ "Y").data).1 (by decide),
   (c3_exactly_once ("X" ++ tools_anchor ++ "Y").data).2.1 (by decide),
   (c3_exactly_once ("X" ++ write_anchor ++ "Y").data).2.2 (by decide)⟩

/-- C4: if the import-block anchor does not occur in the content, that region
is a no-op and no error is raised; with the registration-list and
identifier-set anchors present (once each), the remaining regions are still
applied, so the final output contains those two insertions and omits the
import-block insertion. -/
theorem c4_region_independence (c : List Char)
    (h1 : ¬ perf_anchor.data <:+: c)
    (h2 : numOcc tools_anchor.data c = 1)
    (h3 : numOcc write_anchor.data c = 1) :
    applyImport c = c ∧
    (∃ a b, c = a ++ (tools_anchor.data ++ b) ∧
      applyTools c = a ++ (tools_new.data ++ b)) ∧
    (∃ a b, applyTools c = a ++ (write_anchor.data ++ b) ∧
      fixIndexContent c = a ++ (write_new.data ++ b)) := by
  have himp : applyImport c = c :=
    replaceAll_no_occ perf_anchor.data perf_new.data (by decide) c h1
  obtain ⟨a, b, hc, happ, -⟩ :=
    replaceAll_exists_unique_split tools_anchor.data tools_new.data (by decide) c h2
  have h3' : numOcc write_anchor.data (applyTools c) = 1 := by
    rw [presToolsWrite]; exact h3
  obtain ⟨a', b', hc', happ', -⟩ :=
    replaceAll_exists_unique_split write_anchor.data write_new.data (by decide)
      (applyTools c) h3'
  refine ⟨himp, ⟨a, b, hc, happ⟩, ⟨a', b', hc', ?_⟩⟩
  show applyWriteOps (applyTools (applyImport c)) = _
  rw [himp]
  exact happ'

/-- C4 witness: the statement applied to a concrete content that contains the
registration-list and identifier-set anchors but no import-block anchor. -/
theorem c4_region_independence_witness :
    applyImport (tools_anchor ++ "\n" ++ write_anchor).data =
      (tools_anchor ++ "\n" ++ write_anchor).data ∧
    (∃ a b, (tools_anchor ++ "\n" ++ write_anchor).data =
        a ++ (tools_anchor.data ++ b) ∧
      applyTools (tools_anchor ++ "\n" ++ write_anchor).data =
        a ++ (tools_new.data ++ b)) ∧
    (∃ a b, applyTools (tools_anchor ++ "\n" ++ write_anchor).data =
        a ++ (write_anchor.data ++ b) ∧
      fixIndexContent (tools_anchor ++ "\n" ++ write_anchor).data =
        a ++ (write_new.data ++ b)) :=
  c4_region_independence (tools_anchor ++ "\n" ++ write_anchor).data
    (by decide) (by decide) (by decide)

/-- C5 counterexample: on empty content no anchor matches and nothing is
inserted, yet the printed summary is the same fixed four lines as always:
it reports all three regions as modified ("Added …") although no insertion
occurred, and contains no line reporting the skipped regions. -/
theorem c5_counterexample :
    fixIndexContent [] = [] ∧
    summaryLines [] =
      ["Successfully updated index.ts",
       "- Added file-management import",
       "- Added 9 new tools to tools array",
       "- Added 7 write operations to writeOperations set"] :=
  ⟨by decide, rfl⟩

/-- C5 (amended): the printed summary is a fixed four-line message emitted
unconditionally: for every input it claims all three categories of change
were applied, whether or not any region's insertion actually occurred, and
it never reports a skipped region. -/
theorem c5_summary_fixed (c : List Char) :
    summaryLines c =
      ["Successfully updated index.ts",
       "- Added file-management import",
       "- Added 9 new tools to tools array",
       "- Added 7 write operations to writeOperations set"] := rfl

/-- The block that C6 claims appears in the output: the anchor line
immediately followed by the nine new entry lines and the closing `];`,
with no comment line in between. -/
def c6_claimed_block : String :=
  "  getWaitStatsTool,\n  addDatabaseFileTool,\n  removeDatabaseFileTool,\n  modifyDatabaseFileTool,\n  shrinkDatabaseFileTool,\n  createFilegroupTool,\n  removeFilegroupTool,\n  modifyFilegroupTool,\n  listFilegroupsTool,\n  listDatabaseFilesTool,\n];"

/-- C6 counterexample: on a content that is exactly the block
`  getWaitStatsTool,\n];`, the augmented output is the replaced block, and it
does not contain the anchor line immediately followed by the nine new entry
lines: the insertion starts with the comment line
`  // File and filegroup management tools`, which lies between the anchor line
and the first new entry.  Moreover the output does not contain `];` at all:
the replacement template's final `\2` is the octal escape for U+0002, not a
backreference, so the matched `];` is replaced by a control character. -/
theorem c6_counterexample :
    fixIndexContent tools_anchor.data = tools_new.data ∧
    ¬ c6_claimed_block.data <:+: fixIndexContent tools_anchor.data ∧
    ¬ "];".data <:+: fixIndexContent tools_anchor.data :=
  ⟨by decide, by decide, by decide⟩

/-- C6 (amended): for every input content containing the block ending in
`  getWaitStatsTool,\n];`, the augmented content contains
`  getWaitStatsTool,` followed by a newline, the comment line, the nine new
entry lines, and then a newline and the control character U+0002 — i.e. the
full replaced block `tools_new`.  The nine new entries appear after the
anchor line and one comment line; the closing `];` is not preserved, because
the replacement template ends with the octal escape U+0002 rather than a
backreference to the matched `];`. -/
theorem c6_entries_after_anchor (c : List Char) (h : tools_anchor.data <:+: c) :
    tools_new.data <:+: fixIndexContent c := by
  have h1 : 0 < numOcc tools_anchor.data c :=
    (numOcc_pos_iff tools_anchor.data (by decide) c).mpr h
  have h2 : 0 < numOcc tools_anchor.data (applyImport c) := by
    rw [presImportTools]; exact h1
  have h3 : tools_anchor.data <:+: applyImport c :=
    (numOcc_pos_iff tools_anchor.data (by decide) (applyImport c)).mp h2
  have h4 : tools_new.data <:+: applyTools (applyImport c) :=
    replaceAll_infix_new tools_anchor.data tools_new.data (by decide) (applyImport c) h3
  have h5 : 0 < numOcc tools_new.data (applyTools (applyImport c)) :=
    (numOcc_pos_iff tools_new.data (by decide) (applyTools (applyImport c))).mpr h4
  have h6 : 0 < numOcc tools_new.data (applyWriteOps (applyTools (applyImport c))) := by
    rw [presWriteToolsNew]; exact h5
  exact (numOcc_pos_iff tools_new.data (by decide)
    (applyWriteOps (applyTools (applyImport c)))).mp h6

/-- C6 witness: the amended statement applied at a concrete input containing
the anchor block. -/
theorem c6_entries_after_anchor_witness :
    tools_new.data <:+: fixIndexContent ("XX" ++ tools_anchor ++ "YY").data :=
  c6_entries_after_anchor ("XX" ++ tools_anchor ++ "YY").data (by decide)

/-- A minimal file skeleton containing each of the three anchors exactly
once, in source order. -/
def c7_input : List Char :=
  (perf_anchor ++ "\n").data ++ ((tools_anchor ++ "\n").data ++ write_anchor.data)

/-- C7 counterexample: after one application of the whole transformation the
registration-list insertion block occurs once; after applying the
transformation a second time to its own output it still occurs once, not
twice — the second application does not duplicate the registration-list
insertion, because the first application destroyed the anchor
`  getWaitStatsTool,\n];`. -/
theorem c7_counterexample :
    numOcc tools_addition.data (fixIndexContent c7_input) = 1 ∧
    numOcc tools_addition.data (fixIndexContent (fixIndexContent c7_input)) = 1 ∧
    numOcc tools_addition.data (fixIndexContent (fixIndexContent c7_input)) ≠ 2 :=
  ⟨by decide, by decide, by decide⟩

/-- C7 (amended): running the transformation twice duplicates only the
import-block insertion, whose anchor survives the first run; the
registration-list and identifier-set insertions are not duplicated, because
their anchors are destroyed by the first run's insertions. -/
theorem c7_second_run_partial_duplication :
    numOcc import_statement.data (fixIndexContent c7_input) = 1 ∧
    numOcc import_statement.data (fixIndexContent (fixIndexContent c7_input)) = 2 ∧
    numOcc write_ops.data (fixIndexContent c7_input) = 1 ∧
    numOcc write_ops.data (fixIndexContent (fixIndexContent c7_input)) = 1 :=
  ⟨by decide, by decide, by decide, by decide⟩

/-- C8: later anchors are never altered by earlier insertions: for every input
content, applying the import-block region preserves the number of occurrences
of the registration-list anchor and of the identifier-set anchor, and applying
the registration-list region preserves the number of occurrences of the
identifier-set anchor — no occurrence is destroyed and none is created, so
each later region matches in the threaded content exactly as it did before. -/
theorem c8_anchor_preservation (c : List Char) :
    numOcc tools_anchor.data (applyImport c) = numOcc tools_anchor.data c ∧
    numOcc write_anchor.data (applyImport c) = numOcc write_anchor.data c ∧
    numOcc write_anchor.data (applyTools c) = numOcc write_anchor.data c :=
  ⟨presImportTools c, presImportWrite c, presToolsWrite c⟩

/-- C9: if reading the target file fails (the external store yields no
content), the failure propagates as a fatal error before any write is
attempted: the script performs no write (flag `false`) and the stored content
is unchanged. -/
theorem c9_read_failure_no_write (store : Option (List Char)) (h : store = none) :
    runScript store = (store, false) := by
  subst h
  rfl

/-- C9 witness: the statement applied at the concrete failing store. -/
theorem c9_read_failure_no_write_witness :
    runScript none = (none, false) :=
  c9_read_failure_no_write none rfl

/-- C10: the registration-list insertion fires only when the line
`  getWaitStatsTool,` is immediately followed by a line that is exactly `];`:
for every content that contains the anchor line but not the full two-line
block `  getWaitStatsTool,\n];` (because some other entry, comment or blank
line intervenes), the region is a silent no-op. -/
theorem c10_exact_adjacency_required (c : List Char)
    (_hline : "  getWaitStatsTool,".data <:+: c)
    (hnot : ¬ tools_anchor.data <:+: c) :
    applyTools c = c :=
  replaceAll_no_occ tools_anchor.data tools_new.data (by decide) c hnot

/-- C10 witness: a content in which the anchor line is followed by another
entry before `];`; the region leaves it unchanged. -/
theorem c10_exact_adjacency_required_witness :
    applyTools "  getWaitStatsTool,\n  otherTool,\n];".data =
      "  getWaitStatsTool,\n  otherTool,\n];".data :=
  c10_exact_adjacency_required "  getWaitStatsTool,\n  otherTool,\n];".data
    (by decide) (by decide)
